import Mathlib

/-!
# Keyraken: verification of the item query and mutation engine

Shallow embedding of `src/keyraken.py` (class `KeyringManager`).

Modelling decisions:
* A Python text string that participates in the attribute codec is a list of
  Unicode code points (`PyStr`);  a Python `bytes` value is a list of byte
  values (`PyBytes`).  Labels, paths, secrets and attribute keys never pass
  through the codec, so they stay Lean `String`s.
* Python's strict UTF-8 codec (`str.encode('utf-8')` / `bytes.decode('utf-8')`)
  is embedded as `utf8Encode` / `utf8Decode`;  `utf8Decode` rejects exactly
  what CPython rejects: stray continuation bytes, overlong forms, surrogate
  code points, lead bytes `F5..FF`, and truncated sequences.
* A Python `dict` is an insertion-ordered association list with unique keys;
  `dict.get` is `List.lookup`, `{**a, **b}` is `dictUnion`, and the key
  deletion loop of `delete_item` is `dictRemoveKeys`.
* Raised exceptions are modelled as an error component in the result:
  `ValueError("Item not found")` is `KError.notFound`, a codec failure is
  `KError.encodingError`.  Mutating methods return the whole collection state
  together with the error component, so a partial mutation that happens before
  an exception is preserved.
-/

namespace Keyraken

/-- Code points of a Python `str` value. -/
abbrev PyStr := List Nat

/-- Byte values of a Python `bytes` value. -/
abbrev PyBytes := List Nat

/-- A logical attribute value: Python `Union[str, bytes]`. -/
inductive AttrVal where
  | str (s : PyStr)
  | bytes (b : PyBytes)
deriving DecidableEq, Repr

/-- A logical attribute mapping (`Dict[str, Union[str, bytes]]`). -/
abbrev Attrs := List (String × AttrVal)

/-- A wire attribute mapping (`Dict[str, str]`), as stored by the backend. -/
abbrev WireAttrs := List (String × PyStr)

/-- A stored item: label, wire attributes, secret, backend-assigned path. -/
structure Item where
  label : String
  attributes : WireAttrs
  secret : String
  path : String
deriving DecidableEq, Repr

/-- Errors raised by the mutating methods. -/
inductive KError where
  | notFound
  | encodingError
deriving DecidableEq, Repr

/-! ## UTF-8 codec (CPython's strict `utf-8` codec) -/

/-- `str.encode('utf-8')` on a single code point. -/
def utf8EncodeChar (c : Nat) : PyBytes :=
  if c < 0x80 then [c]
  else if c < 0x800 then [0xC0 + c / 0x40, 0x80 + c % 0x40]
  else if c < 0x10000 then
    [0xE0 + c / 0x1000, 0x80 + c / 0x40 % 0x40, 0x80 + c % 0x40]
  else
    [0xF0 + c / 0x40000, 0x80 + c / 0x1000 % 0x40, 0x80 + c / 0x40 % 0x40,
     0x80 + c % 0x40]

/-- `str.encode('utf-8')` on a whole string. -/
def utf8Encode (s : PyStr) : PyBytes := (s.map utf8EncodeChar).flatten

/-- Whether a byte is a UTF-8 continuation byte (`0x80..0xBF`). -/
def isCont (b : Nat) : Bool := decide (0x80 ≤ b) && decide (b < 0xC0)

/-- One step of strict UTF-8 decoding: given a lead byte `b0` and the bytes
after it, return the decoded code point and the remaining bytes, or `none`
on a malformed sequence (as CPython's strict `utf-8` codec rejects it). -/
def utf8DecodeOne (b0 : Nat) (r0 : PyBytes) : Option (Nat × PyBytes) :=
  if b0 < 0x80 then some (b0, r0)
  else if b0 < 0xC2 then none
  else if b0 < 0xE0 then
    match r0 with
    | b1 :: r1 =>
      if isCont b1 then some ((b0 - 0xC0) * 0x40 + (b1 - 0x80), r1) else none
    | [] => none
  else if b0 < 0xF0 then
    match r0 with
    | b1 :: b2 :: r2 =>
      if isCont b1 && isCont b2 then
        if 0x800 ≤ (b0 - 0xE0) * 0x1000 + (b1 - 0x80) * 0x40 + (b2 - 0x80) ∧
            ¬(0xD800 ≤ (b0 - 0xE0) * 0x1000 + (b1 - 0x80) * 0x40 + (b2 - 0x80) ∧
              (b0 - 0xE0) * 0x1000 + (b1 - 0x80) * 0x40 + (b2 - 0x80) < 0xE000) then
          some ((b0 - 0xE0) * 0x1000 + (b1 - 0x80) * 0x40 + (b2 - 0x80), r2)
        else none
      else none
    | _ => none
  else if b0 < 0xF5 then
    match r0 with
    | b1 :: b2 :: b3 :: r3 =>
      if isCont b1 && isCont b2 && isCont b3 then
        if 0x10000 ≤ (b0 - 0xF0) * 0x40000 + (b1 - 0x80) * 0x1000
              + (b2 - 0x80) * 0x40 + (b3 - 0x80) ∧
            (b0 - 0xF0) * 0x40000 + (b1 - 0x80) * 0x1000
              + (b2 - 0x80) * 0x40 + (b3 - 0x80) < 0x110000 then
          some ((b0 - 0xF0) * 0x40000 + (b1 - 0x80) * 0x1000
                + (b2 - 0x80) * 0x40 + (b3 - 0x80), r3)
        else none
      else none
    | _ => none
  else none

/-- The decode loop, structurally recursive on a fuel bound.  Every step
consumes at least the lead byte, so fuel `b.length` always suffices. -/
def utf8DecodeLoop : Nat → PyBytes → Option PyStr
  | _, [] => some []
  | 0, _ :: _ => none
  | fuel + 1, b0 :: r0 =>
    match utf8DecodeOne b0 r0 with
    | none => none
    | some (c, rest) => (utf8DecodeLoop fuel rest).map (c :: ·)

/-- `bytes.decode('utf-8')`, strict: `none` models a raised
`UnicodeDecodeError`. -/
def utf8Decode (b : PyBytes) : Option PyStr := utf8DecodeLoop b.length b

/-! ## Attribute codec (`_encode_attributes` / `_decode_attributes`) -/

/-- One value of `_encode_attributes`: `v.decode('utf-8') if isinstance(v, bytes) else v`. -/
def encodeVal : AttrVal → Option PyStr
  | .str s => some s
  | .bytes b => utf8Decode b

/-- `KeyringManager._encode_attributes` (`toWire`): encode every value to text.
`none` models the `UnicodeDecodeError` CPython raises on non-UTF-8 bytes. -/
def encode_attributes : Attrs → Option WireAttrs
  | [] => some []
  | (k, v) :: rest =>
    match encodeVal v, encode_attributes rest with
    | some s, some r => some ((k, s) :: r)
    | _, _ => none

/-- `KeyringManager._decode_attributes` (`fromWire`): re-encode every text value
to bytes (`bytes(v, 'utf-8')`; wire values are always text). -/
def decode_attributes (w : WireAttrs) : List (String × PyBytes) :=
  w.map fun kv => (kv.1, utf8Encode kv.2)

/-! ## UTF-8 round trip -/

theorem utf8EncodeChar_one (b0 : Nat) (h : b0 < 0x80) : utf8EncodeChar b0 = [b0] := by
  simp [utf8EncodeChar, h]

theorem utf8EncodeChar_two (b0 b1 : Nat) (h0 : 0xC2 ≤ b0) (h0' : b0 < 0xE0)
    (h1 : 0x80 ≤ b1) (h1' : b1 < 0xC0) :
    utf8EncodeChar ((b0 - 0xC0) * 0x40 + (b1 - 0x80)) = [b0, b1] := by
  unfold utf8EncodeChar
  rw [if_neg (by omega), if_pos (by omega)]
  simp only [List.cons.injEq, and_true]
  omega

theorem utf8EncodeChar_three (b0 b1 b2 : Nat) (h0 : 0xE0 ≤ b0) (h0' : b0 < 0xF0)
    (h1 : 0x80 ≤ b1) (h1' : b1 < 0xC0) (h2 : 0x80 ≤ b2) (h2' : b2 < 0xC0)
    (hc : 0x800 ≤ (b0 - 0xE0) * 0x1000 + (b1 - 0x80) * 0x40 + (b2 - 0x80)) :
    utf8EncodeChar ((b0 - 0xE0) * 0x1000 + (b1 - 0x80) * 0x40 + (b2 - 0x80))
      = [b0, b1, b2] := by
  unfold utf8EncodeChar
  rw [if_neg (by omega), if_neg (by omega), if_pos (by omega)]
  simp only [List.cons.injEq, and_true]
  omega

theorem utf8EncodeChar_four (b0 b1 b2 b3 : Nat) (h0 : 0xF0 ≤ b0) (h0' : b0 < 0xF5)
    (h1 : 0x80 ≤ b1) (h1' : b1 < 0xC0) (h2 : 0x80 ≤ b2) (h2' : b2 < 0xC0)
    (h3 : 0x80 ≤ b3) (h3' : b3 < 0xC0)
    (hc : 0x10000 ≤ (b0 - 0xF0) * 0x40000 + (b1 - 0x80) * 0x1000
            + (b2 - 0x80) * 0x40 + (b3 - 0x80)) :
    utf8EncodeChar ((b0 - 0xF0) * 0x40000 + (b1 - 0x80) * 0x1000
        + (b2 - 0x80) * 0x40 + (b3 - 0x80))
      = [b0, b1, b2, b3] := by
  unfold utf8EncodeChar
  rw [if_neg (by omega), if_neg (by omega), if_neg (by omega)]
  simp only [List.cons.injEq, and_true]
  omega

theorem utf8Encode_nil : utf8Encode [] = [] := rfl

theorem utf8Encode_cons (c : Nat) (s : PyStr) :
    utf8Encode (c :: s) = utf8EncodeChar c ++ utf8Encode s := by
  simp [utf8Encode]

/-- One decode step re-encodes to the bytes it consumed. -/
theorem utf8DecodeOne_encode (b0 : Nat) (r0 : PyBytes) (c : Nat) (rest : PyBytes)
    (h : utf8DecodeOne b0 r0 = some (c, rest)) :
    utf8EncodeChar c ++ rest = b0 :: r0 := by
  unfold utf8DecodeOne at h
  repeat' split at h
  all_goals try exact Option.noConfusion h
  all_goals simp only [Option.some.injEq, Prod.mk.injEq] at h
  all_goals obtain ⟨rfl, rfl⟩ := h
  · rw [utf8EncodeChar_one _ ‹_ < 0x80›]
    rfl
  · rename_i b1 r1 hcont
    have hb1 : 0x80 ≤ b1 ∧ b1 < 0xC0 := by simpa [isCont] using hcont
    rw [utf8EncodeChar_two b0 b1 (by omega) (by omega) hb1.1 hb1.2]
    rfl
  · rename_i b1 b2 r2 hcont hg
    have hb : (0x80 ≤ b1 ∧ b1 < 0xC0) ∧ (0x80 ≤ b2 ∧ b2 < 0xC0) := by
      simpa [isCont] using hcont
    rw [utf8EncodeChar_three b0 b1 b2 (by omega) (by omega) hb.1.1 hb.1.2
      hb.2.1 hb.2.2 hg.1]
    rfl
  · rename_i b1 b2 b3 r3 hcont hg
    have hb : ((0x80 ≤ b1 ∧ b1 < 0xC0) ∧ (0x80 ≤ b2 ∧ b2 < 0xC0))
        ∧ (0x80 ≤ b3 ∧ b3 < 0xC0) := by
      simpa [isCont] using hcont
    rw [utf8EncodeChar_four b0 b1 b2 b3 (by omega) (by omega) hb.1.1.1
      hb.1.1.2 hb.1.2.1 hb.1.2.2 hb.2.1 hb.2.2 hg.1]
    rfl

/-- The decode loop inverts encoding, for any fuel. -/
theorem utf8Encode_decodeLoop (fuel : Nat) :
    ∀ (b : PyBytes) (s : PyStr), utf8DecodeLoop fuel b = some s →
      utf8Encode s = b := by
  induction fuel with
  | zero =>
    intro b s h
    cases b with
    | nil =>
      simp only [utf8DecodeLoop, Option.some.injEq] at h
      simp [← h, utf8Encode]
    | cons b0 r0 => exact Option.noConfusion h
  | succ fuel ih =>
    intro b s h
    cases b with
    | nil =>
      simp only [utf8DecodeLoop, Option.some.injEq] at h
      simp [← h, utf8Encode]
    | cons b0 r0 =>
      simp only [utf8DecodeLoop] at h
      cases hone : utf8DecodeOne b0 r0 with
      | none => rw [hone] at h; exact Option.noConfusion h
      | some pr =>
        obtain ⟨c, rest⟩ := pr
        rw [hone] at h
        simp only [] at h
        cases hr : utf8DecodeLoop fuel rest with
        | none => rw [hr] at h; exact Option.noConfusion h
        | some s' =>
          rw [hr] at h
          simp only [Option.map_some', Option.some.injEq] at h
          rw [← h, utf8Encode_cons, ih rest s' hr]
          exact utf8DecodeOne_encode b0 r0 c rest hone

/-- Strict UTF-8 decoding inverts encoding: any byte string the decoder
accepts re-encodes to itself. -/
theorem utf8Encode_decode (b : PyBytes) :
    ∀ s, utf8Decode b = some s → utf8Encode s = b :=
  fun s h => utf8Encode_decodeLoop b.length b s h

/-! ## Python dict operations -/

/-- `{**a, **b}` for one entry of `b`: if the key is present, update that
entry's value in place (keys are unique in a Python dict, so the first hit is
the only one), else append the pair at the end (CPython dict insertion
semantics). -/
def dictInsert : WireAttrs → String → PyStr → WireAttrs
  | [], k, v => [(k, v)]
  | e :: d, k, v => if e.1 == k then (k, v) :: d else e :: dictInsert d k v

/-- `{**a, **b}`: insert every entry of `b` into `a`, left to right. -/
def dictUnion (a b : WireAttrs) : WireAttrs :=
  b.foldl (fun acc kv => dictInsert acc kv.1 kv.2) a

/-- The key-deletion loop of `delete_item`:
`for attr in ks: if attr in d: del d[attr]`. -/
def dictRemoveKeys (d : WireAttrs) (ks : WireAttrs) : WireAttrs :=
  ks.foldl (fun acc kv => acc.filter (fun e => !(e.1 == kv.1))) d

/-! ## Item Matcher (`KeyringManager.search_items`) -/

/-- The per-item condition of the `search_items` loop:
`matches_attributes`, `matches_label`, `matches_path` combined by `logic`.
An unrecognized `logic` value appends nothing, exactly as in the source. -/
def itemMatches (ea : WireAttrs) (label path : Option String) (logic : String)
    (it : Item) : Bool :=
  let ma := ea.all fun kv => it.attributes.lookup kv.1 == some kv.2
  let ml := match label with
    | none => true
    | some l => l == it.label
  let mp := match path with
    | none => true
    | some p => p == it.path
  if logic == "AND" then ma && ml && mp
  else if logic == "OR" then ma || ml || mp
  else false

/-- `KeyringManager.search_items`: `attributes = None` defaults to `{}`, the
predicate attributes are encoded to wire form, and the collection is scanned
in enumeration order.  `none` models the `UnicodeDecodeError` the encoding
step can raise. -/
def search_items (items : List Item) (attributes : Option Attrs)
    (label path : Option String) (logic : String) : Option (List Item) :=
  match encode_attributes (attributes.getD []) with
  | none => none
  | some ea => some (items.filter (itemMatches ea label path logic))

/-! ## Item Mutator (`update_item`, `delete_item`, `read_item`) -/

/-- Replace the first list element satisfying `p` (the backend object
`items[0]` of the match list is the first satisfying item of the scan). -/
def replaceFirst (p : Item → Bool) (f : Item → Item) : List Item → List Item
  | [] => []
  | x :: xs => if p x then f x :: xs else x :: replaceFirst p f xs

/-- Remove the first list element satisfying `p` (models `item.delete()` on
the first match). -/
def removeFirst (p : Item → Bool) : List Item → List Item
  | [] => []
  | x :: xs => if p x then xs else x :: removeFirst p xs

/-- Python truthiness of an `Optional[str]` (`if new_secret:`). -/
def pyTruthyStr : Option String → Bool
  | none => false
  | some s => !(s == "")

/-- `KeyringManager.update_item`.  Returns the collection after the call
together with the raised error, if any (`ValueError("Item not found")` is
`KError.notFound`).  The search step inlines `search_items` (encode the
search attributes, then filter); `if items:` is the emptiness test on the
match list; mutations apply to the first matching item.  Note the source
order: the secret is set before the new attributes are encoded, so a secret
change survives an encoding error of `new_attributes`. -/
def update_item (items : List Item) (attributes : Option Attrs)
    (new_secret : Option String) (new_attributes : Option Attrs)
    (label path : Option String) (logic : String) (merge : Bool) :
    List Item × Option KError :=
  match encode_attributes (attributes.getD []) with
  | none => (items, some KError.encodingError)
  | some ea =>
    let p := itemMatches ea label path logic
    if (items.filter p).isEmpty then (items, some KError.notFound)
    else
      let items1 := if pyTruthyStr new_secret then
        replaceFirst p (fun it => { it with secret := new_secret.getD "" }) items
      else items
      match new_attributes with
      | some na =>
        if na.isEmpty then (items1, none)
        else
          match encode_attributes na with
          | none => (items1, some KError.encodingError)
          | some ena =>
            if merge then
              (replaceFirst p
                (fun it => { it with attributes := dictUnion it.attributes ena })
                items1, none)
            else
              (replaceFirst p (fun it => { it with attributes := ena }) items1,
               none)
      | none => (items1, none)

/-- `KeyringManager.delete_item`.  `if delete_attributes:` is Python truthy,
so both `None` and an empty mapping take the whole-item `item.delete()`
branch. -/
def delete_item (items : List Item) (attributes : Option Attrs)
    (label path : Option String) (logic : String)
    (delete_attributes : Option Attrs) : List Item × Option KError :=
  match encode_attributes (attributes.getD []) with
  | none => (items, some KError.encodingError)
  | some ea =>
    let p := itemMatches ea label path logic
    if (items.filter p).isEmpty then (items, some KError.notFound)
    else
      match delete_attributes with
      | some da =>
        if da.isEmpty then (removeFirst p items, none)
        else
          match encode_attributes da with
          | none => (items, some KError.encodingError)
          | some eda =>
            (replaceFirst p
              (fun it => { it with attributes := dictRemoveKeys it.attributes eda })
              items, none)
      | none => (removeFirst p items, none)

/-- The full decoded record `read_item` builds for one item:
label, decoded attributes, secret. -/
structure ItemRecord where
  label : String
  attributes : List (String × PyBytes)
  secret : String
deriving DecidableEq, Repr

/-- The record dict `read_item` returns for one item. -/
def itemRecord (it : Item) : ItemRecord :=
  { label := it.label
    attributes := decode_attributes it.attributes
    secret := it.secret }

/-- The value `read_item` returns: `notFound` models Python `None`. -/
inductive ReadResult where
  | notFound
  | single (r : ItemRecord)
  | multi (rs : List ItemRecord)
deriving DecidableEq, Repr

/-- `KeyringManager.read_item`.  The outer `Option` models the encoding
exception of the search step. -/
def read_item (items : List Item) (attributes : Option Attrs)
    (label path : Option String) (logic : String) (multiple : Bool) :
    Option ReadResult :=
  match search_items items attributes label path logic with
  | none => none
  | some matched =>
    match matched with
    | [] => some ReadResult.notFound
    | it :: rest =>
      if multiple then some (ReadResult.multi ((it :: rest).map itemRecord))
      else some (ReadResult.single (itemRecord it))

/-! ## Session unlock (`KeyringManager._unlock`) -/

/-- The observable steps `_unlock` takes against the Secret Service. -/
inductive UnlockStep where
  | checkLocked (result : Bool)
  | unlockRequest (dismissed : Bool)
  | raiseStillLocked
deriving DecidableEq, Repr

/-- The backing service's behaviour during one `_unlock` call: the lock state
before the call, the lock state reported after the unlock request resolves,
and whether the user dismissed the prompt. -/
structure SecretServiceLock where
  initiallyLocked : Bool
  lockedAfterRequest : Bool
  promptDismissed : Bool
deriving DecidableEq, Repr

/-- `KeyringManager._unlock` as the trace of its interactions: check the lock
state; if locked, issue one `collection.unlock()` request, then re-check; if
still locked, raise (`StillLockedError`). -/
def unlockTrace (svc : SecretServiceLock) : List UnlockStep :=
  if svc.initiallyLocked then
    UnlockStep.checkLocked true
      :: UnlockStep.unlockRequest svc.promptDismissed
      :: (if svc.lockedAfterRequest then
            [UnlockStep.checkLocked true, UnlockStep.raiseStillLocked]
          else [UnlockStep.checkLocked false])
  else [UnlockStep.checkLocked false]

/-- Whether a trace step is an unlock request (prompt-flow invocation). -/
def isUnlockRequest : UnlockStep → Bool
  | UnlockStep.unlockRequest _ => true
  | _ => false

/-! ## Association-list lemmas -/

theorem lookup_eq_none_of_not_mem_keys (d : WireAttrs) (k : String)
    (h : k ∉ d.map Prod.fst) : d.lookup k = none := by
  induction d with
  | nil => rfl
  | cons e d ih =>
    obtain ⟨ek, ev⟩ := e
    simp only [List.map_cons, List.mem_cons, not_or] at h
    have hne : (k == ek) = false := beq_eq_false_iff_ne.mpr h.1
    simp only [List.lookup_cons, hne]
    exact ih h.2

theorem dictInsert_lookup (d : WireAttrs) (k0 : String) (v : PyStr) (k : String) :
    (dictInsert d k0 v).lookup k = if k = k0 then some v else d.lookup k := by
  induction d with
  | nil =>
    by_cases hk : k = k0
    · subst hk
      simp [dictInsert, List.lookup_cons]
    · have hne : (k == k0) = false := beq_eq_false_iff_ne.mpr hk
      simp [dictInsert, List.lookup_cons, hne, hk]
  | cons e d ih =>
    obtain ⟨ek, ev⟩ := e
    by_cases he : ek = k0
    · rw [show dictInsert ((ek, ev) :: d) k0 v = (k0, v) :: d from by
        simp [dictInsert, he]]
      by_cases hk : k = k0
      · subst hk
        simp [List.lookup_cons]
      · have hne : (k == k0) = false := beq_eq_false_iff_ne.mpr hk
        have hne2 : (k == ek) = false := beq_eq_false_iff_ne.mpr (he ▸ hk)
        simp only [List.lookup_cons, hne, hne2, if_neg hk]
    · rw [show dictInsert ((ek, ev) :: d) k0 v = (ek, ev) :: dictInsert d k0 v from by
        simp [dictInsert, he]]
      by_cases hk : k = ek
      · subst hk
        have hne : ¬k = k0 := fun hh => he (hh ▸ rfl)
        simp [List.lookup_cons, if_neg hne]
      · have hne2 : (k == ek) = false := beq_eq_false_iff_ne.mpr hk
        simp only [List.lookup_cons, hne2, ih]

theorem dictUnion_lookup (b : WireAttrs) (hnd : (b.map Prod.fst).Nodup)
    (a : WireAttrs) (k : String) :
    (dictUnion a b).lookup k = match b.lookup k with
      | some v => some v
      | none => a.lookup k := by
  induction b generalizing a with
  | nil => simp [dictUnion]
  | cons e b ih =>
    obtain ⟨ek, ev⟩ := e
    simp only [List.map_cons, List.nodup_cons] at hnd
    have hstep : dictUnion a ((ek, ev) :: b) = dictUnion (dictInsert a ek ev) b := rfl
    rw [hstep, ih hnd.2]
    by_cases hk : k = ek
    · subst hk
      have hb : b.lookup k = none :=
        lookup_eq_none_of_not_mem_keys b k hnd.1
      rw [hb, List.lookup_cons]
      simp [dictInsert_lookup]
    · have hne : (k == ek) = false := beq_eq_false_iff_ne.mpr hk
      rw [List.lookup_cons]
      simp only [hne]
      cases hb : b.lookup k with
      | some v' => rfl
      | none => simp [dictInsert_lookup, if_neg hk]

theorem filter_key_lookup (d : WireAttrs) (k0 k : String) :
    (d.filter fun e => !(e.1 == k0)).lookup k
      = if k = k0 then none else d.lookup k := by
  induction d with
  | nil => simp
  | cons e d ih =>
    obtain ⟨ek, ev⟩ := e
    by_cases he : ek = k0
    · have hbe : (ek == k0) = true := beq_iff_eq.mpr he
      rw [show ((ek, ev) :: d).filter (fun e => !(e.1 == k0))
            = d.filter (fun e => !(e.1 == k0)) from by
          simp [List.filter_cons, hbe]]
      rw [ih]
      by_cases hk : k = k0
      · simp [hk]
      · have hne : (k == ek) = false := beq_eq_false_iff_ne.mpr (by
          intro hh
          exact hk (hh.trans he))
        simp only [if_neg hk, List.lookup_cons, hne]
    · have hbe : (ek == k0) = false := beq_eq_false_iff_ne.mpr he
      rw [show ((ek, ev) :: d).filter (fun e => !(e.1 == k0))
            = (ek, ev) :: d.filter (fun e => !(e.1 == k0)) from by
          simp [List.filter_cons, hbe]]
      by_cases hk : k = ek
      · subst hk
        have hkk0 : ¬k = k0 := he
        simp [List.lookup_cons, if_neg hkk0]
      · have hne : (k == ek) = false := beq_eq_false_iff_ne.mpr hk
        simp only [List.lookup_cons, hne, ih]

theorem dictRemoveKeys_lookup (ks : WireAttrs) (d : WireAttrs) (k : String) :
    (dictRemoveKeys d ks).lookup k
      = if ks.any (fun kv => kv.1 == k) then none else d.lookup k := by
  induction ks generalizing d with
  | nil => simp [dictRemoveKeys]
  | cons e ks ih =>
    have hstep : dictRemoveKeys d (e :: ks)
        = dictRemoveKeys (d.filter fun x => !(x.1 == e.1)) ks := rfl
    rw [hstep, ih]
    simp only [List.any_cons]
    by_cases hks : ks.any (fun kv => kv.1 == k) = true
    · simp [hks]
    · have hks' : ks.any (fun kv => kv.1 == k) = false :=
        Bool.eq_false_iff.mpr hks
      rw [filter_key_lookup]
      by_cases hk : k = e.1
      · subst hk
        simp [hks']
      · have hne : (e.1 == k) = false := beq_eq_false_iff_ne.mpr (by
          intro hh
          exact hk hh.symm)
        simp [hne, hks', hk]

/-! ## First-match list lemmas -/

theorem filter_append_first (p : Item → Bool) (pre post : List Item) (it : Item)
    (hpre : ∀ x ∈ pre, p x = false) (hit : p it = true) :
    (pre ++ it :: post).filter p = it :: post.filter p := by
  induction pre with
  | nil => simp [List.filter_cons, hit]
  | cons x pre ih =>
    rw [List.cons_append, List.filter_cons_of_neg]
    · exact ih (fun y hy => hpre y (List.mem_cons_of_mem x hy))
    · simp [hpre x (List.mem_cons_self x pre)]

theorem replaceFirst_append_first (p : Item → Bool) (f : Item → Item)
    (pre post : List Item) (it : Item)
    (hpre : ∀ x ∈ pre, p x = false) (hit : p it = true) :
    replaceFirst p f (pre ++ it :: post) = pre ++ f it :: post := by
  induction pre with
  | nil => simp [replaceFirst, hit]
  | cons x pre ih =>
    rw [List.cons_append]
    show (if p x then f x :: (pre ++ it :: post) else x :: replaceFirst p f (pre ++ it :: post)) = _
    rw [if_neg (by simp [hpre x (List.mem_cons_self x pre)])]
    rw [ih (fun y hy => hpre y (List.mem_cons_of_mem x hy))]
    rfl

theorem removeFirst_append_first (p : Item → Bool)
    (pre post : List Item) (it : Item)
    (hpre : ∀ x ∈ pre, p x = false) (hit : p it = true) :
    removeFirst p (pre ++ it :: post) = pre ++ post := by
  induction pre with
  | nil => simp [removeFirst, hit]
  | cons x pre ih =>
    rw [List.cons_append]
    show (if p x then pre ++ it :: post else x :: removeFirst p (pre ++ it :: post)) = _
    rw [if_neg (by simp [hpre x (List.mem_cons_self x pre)])]
    rw [ih (fun y hy => hpre y (List.mem_cons_of_mem x hy))]
    rfl

/-- The match predicate never inspects the secret. -/
theorem itemMatches_set_secret (ea : WireAttrs) (lbl pth : Option String)
    (lg : String) (it : Item) (s : String) :
    itemMatches ea lbl pth lg { it with secret := s }
      = itemMatches ea lbl pth lg it := by
  cases it
  rfl

/-! ## Decomposition lemmas for the mutators -/

theorem update_item_no_match (items : List Item) (pa : Option Attrs)
    (ns : Option String) (na : Option Attrs) (lbl pth : Option String)
    (lg : String) (mg : Bool) (ea : WireAttrs)
    (hea : encode_attributes (pa.getD []) = some ea)
    (hmatch : items.filter (itemMatches ea lbl pth lg) = []) :
    update_item items pa ns na lbl pth lg mg = (items, some KError.notFound) := by
  unfold update_item
  rw [hea]
  simp only [hmatch, List.isEmpty_nil, if_true]

theorem delete_item_no_match (items : List Item) (pa : Option Attrs)
    (lbl pth : Option String) (lg : String) (da : Option Attrs) (ea : WireAttrs)
    (hea : encode_attributes (pa.getD []) = some ea)
    (hmatch : items.filter (itemMatches ea lbl pth lg) = []) :
    delete_item items pa lbl pth lg da = (items, some KError.notFound) := by
  unfold delete_item
  rw [hea]
  simp only [hmatch, List.isEmpty_nil, if_true]

theorem update_item_decomp (pre post : List Item) (it : Item) (pa : Option Attrs)
    (ns : Option String) (na : Option Attrs) (lbl pth : Option String)
    (lg : String) (mg : Bool) (ea : WireAttrs)
    (hea : encode_attributes (pa.getD []) = some ea)
    (hpre : ∀ x ∈ pre, itemMatches ea lbl pth lg x = false)
    (hit : itemMatches ea lbl pth lg it = true) :
    update_item (pre ++ it :: post) pa ns na lbl pth lg mg
      = (let it1 := if pyTruthyStr ns then { it with secret := ns.getD "" } else it
         match na with
         | some nal =>
           if nal.isEmpty then (pre ++ it1 :: post, none)
           else
             match encode_attributes nal with
             | none => (pre ++ it1 :: post, some KError.encodingError)
             | some ena =>
               if mg then
                 (pre ++ { it1 with attributes := dictUnion it.attributes ena }
                    :: post, none)
               else (pre ++ { it1 with attributes := ena } :: post, none)
         | none => (pre ++ it1 :: post, none)) := by
  unfold update_item
  rw [hea]
  simp only [filter_append_first _ _ _ _ hpre hit, List.isEmpty_cons,
    Bool.false_eq_true, if_false]
  by_cases hns : pyTruthyStr ns = true
  · simp only [hns, if_true]
    rw [replaceFirst_append_first _ _ _ _ _ hpre hit]
    have hit1 : itemMatches ea lbl pth lg { it with secret := ns.getD "" } = true := by
      rw [itemMatches_set_secret]
      exact hit
    cases na with
    | none => rfl
    | some nal =>
      by_cases hne : nal.isEmpty = true
      · simp only [hne, if_true]
      · simp only [Bool.eq_false_iff.mpr hne, Bool.false_eq_true, if_false]
        cases hena : encode_attributes nal with
        | none => rfl
        | some ena =>
          cases mg with
          | true =>
            simp only [if_true]
            rw [replaceFirst_append_first _ _ _ _ _ hpre hit1]
          | false =>
            simp only [Bool.false_eq_true, if_false]
            rw [replaceFirst_append_first _ _ _ _ _ hpre hit1]
  · simp only [Bool.eq_false_iff.mpr hns, Bool.false_eq_true, if_false]
    cases na with
    | none => rfl
    | some nal =>
      by_cases hne : nal.isEmpty = true
      · simp only [hne, if_true]
      · simp only [Bool.eq_false_iff.mpr hne, Bool.false_eq_true, if_false]
        cases hena : encode_attributes nal with
        | none => rfl
        | some ena =>
          cases mg with
          | true =>
            simp only [if_true]
            rw [replaceFirst_append_first _ _ _ _ _ hpre hit]
          | false =>
            simp only [Bool.false_eq_true, if_false]
            rw [replaceFirst_append_first _ _ _ _ _ hpre hit]

theorem delete_item_decomp (pre post : List Item) (it : Item) (pa : Option Attrs)
    (lbl pth : Option String) (lg : String) (da : Option Attrs) (ea : WireAttrs)
    (hea : encode_attributes (pa.getD []) = some ea)
    (hpre : ∀ x ∈ pre, itemMatches ea lbl pth lg x = false)
    (hit : itemMatches ea lbl pth lg it = true) :
    delete_item (pre ++ it :: post) pa lbl pth lg da
      = (match da with
         | some dal =>
           if dal.isEmpty then (pre ++ post, none)
           else
             match encode_attributes dal with
             | none => (pre ++ it :: post, some KError.encodingError)
             | some eda =>
               (pre ++ { it with attributes := dictRemoveKeys it.attributes eda }
                  :: post, none)
         | none => (pre ++ post, none)) := by
  unfold delete_item
  rw [hea]
  simp only [filter_append_first _ _ _ _ hpre hit, List.isEmpty_cons,
    Bool.false_eq_true, if_false]
  cases da with
  | none => rw [removeFirst_append_first _ _ _ _ hpre hit]
  | some dal =>
    by_cases hde : dal.isEmpty = true
    · simp only [hde, if_true]
      rw [removeFirst_append_first _ _ _ _ hpre hit]
    · simp only [Bool.eq_false_iff.mpr hde, Bool.false_eq_true, if_false]
      cases heda : encode_attributes dal with
      | none => rfl
      | some eda =>
        simp only []
        rw [replaceFirst_append_first _ _ _ _ _ hpre hit]

/-- A non-empty filter result exhibits a first-match decomposition of the
scanned list. -/
theorem exists_first_match_decomp (p : Item → Bool) (items : List Item)
    (it : Item) (rest : List Item) (h : items.filter p = it :: rest) :
    ∃ pre post, items = pre ++ it :: post
      ∧ (∀ x ∈ pre, p x = false) ∧ p it = true := by
  induction items with
  | nil => simp at h
  | cons x items ih =>
    by_cases hx : p x = true
    · rw [List.filter_cons_of_pos hx] at h
      injection h with h1 h2
      subst h1
      exact ⟨[], items, rfl, by simp, hx⟩
    · have hx' : p x = false := Bool.eq_false_iff.mpr hx
      rw [List.filter_cons_of_neg (by simp [hx'])] at h
      obtain ⟨pre, post, hd, hp, hq⟩ := ih h
      refine ⟨x :: pre, post, by rw [hd]; rfl, ?_, hq⟩
      intro y hy
      rcases List.mem_cons.mp hy with hy1 | hy2
      · rw [hy1]; exact hx'
      · exact hp y hy2

theorem update_item_snd_ne_notFound (pre post : List Item) (it : Item)
    (pa : Option Attrs) (ns : Option String) (na : Option Attrs)
    (lbl pth : Option String) (lg : String) (mg : Bool) (ea : WireAttrs)
    (hea : encode_attributes (pa.getD []) = some ea)
    (hpre : ∀ x ∈ pre, itemMatches ea lbl pth lg x = false)
    (hit : itemMatches ea lbl pth lg it = true) :
    (update_item (pre ++ it :: post) pa ns na lbl pth lg mg).2
      ≠ some KError.notFound := by
  rw [update_item_decomp pre post it pa ns na lbl pth lg mg ea hea hpre hit]
  simp only []
  cases na with
  | none => simp
  | some nal =>
    by_cases hne : nal.isEmpty = true
    · simp [hne]
    · simp only [Bool.eq_false_iff.mpr hne, Bool.false_eq_true, if_false]
      cases hena : encode_attributes nal with
      | none => simp
      | some ena => cases mg <;> simp

theorem update_item_fst_first_only (pre post : List Item) (it : Item)
    (pa : Option Attrs) (ns : Option String) (na : Option Attrs)
    (lbl pth : Option String) (lg : String) (mg : Bool) (ea : WireAttrs)
    (hea : encode_attributes (pa.getD []) = some ea)
    (hpre : ∀ x ∈ pre, itemMatches ea lbl pth lg x = false)
    (hit : itemMatches ea lbl pth lg it = true) :
    ∃ u, (update_item (pre ++ it :: post) pa ns na lbl pth lg mg).1
      = pre ++ u :: post := by
  rw [update_item_decomp pre post it pa ns na lbl pth lg mg ea hea hpre hit]
  simp only []
  cases na with
  | none => exact ⟨_, rfl⟩
  | some nal =>
    by_cases hne : nal.isEmpty = true
    · simp only [hne, if_true]
      exact ⟨_, rfl⟩
    · simp only [Bool.eq_false_iff.mpr hne, Bool.false_eq_true, if_false]
      cases hena : encode_attributes nal with
      | none => exact ⟨_, rfl⟩
      | some ena =>
        cases mg with
        | true => exact ⟨_, rfl⟩
        | false => exact ⟨_, rfl⟩

theorem delete_item_snd_ne_notFound (pre post : List Item) (it : Item)
    (pa : Option Attrs) (lbl pth : Option String) (lg : String)
    (da : Option Attrs) (ea : WireAttrs)
    (hea : encode_attributes (pa.getD []) = some ea)
    (hpre : ∀ x ∈ pre, itemMatches ea lbl pth lg x = false)
    (hit : itemMatches ea lbl pth lg it = true) :
    (delete_item (pre ++ it :: post) pa lbl pth lg da).2
      ≠ some KError.notFound := by
  rw [delete_item_decomp pre post it pa lbl pth lg da ea hea hpre hit]
  cases da with
  | none => simp
  | some dal =>
    by_cases hde : dal.isEmpty = true
    · simp [hde]
    · simp only [Bool.eq_false_iff.mpr hde, Bool.false_eq_true, if_false]
      cases heda : encode_attributes dal with
      | none => simp
      | some eda => simp

theorem delete_item_fst_first_only (pre post : List Item) (it : Item)
    (pa : Option Attrs) (lbl pth : Option String) (lg : String)
    (da : Option Attrs) (ea : WireAttrs)
    (hea : encode_attributes (pa.getD []) = some ea)
    (hpre : ∀ x ∈ pre, itemMatches ea lbl pth lg x = false)
    (hit : itemMatches ea lbl pth lg it = true) :
    (delete_item (pre ++ it :: post) pa lbl pth lg da).1 = pre ++ post ∨
      ∃ d, (delete_item (pre ++ it :: post) pa lbl pth lg da).1
        = pre ++ d :: post := by
  rw [delete_item_decomp pre post it pa lbl pth lg da ea hea hpre hit]
  cases da with
  | none => exact Or.inl rfl
  | some dal =>
    by_cases hde : dal.isEmpty = true
    · simp only [hde, if_true]
      exact Or.inl (by trivial)
    · simp only [Bool.eq_false_iff.mpr hde, Bool.false_eq_true, if_false]
      cases heda : encode_attributes dal with
      | none => exact Or.inr ⟨it, rfl⟩
      | some eda => exact Or.inr ⟨_, rfl⟩

/-! ## Specification-side matcher predicates (for the refinement claim C1)

These three definitions are written from the specification's wording, to be
compared with `itemMatches`, which is translated from the source loop. -/

/-- Spec wording: every key of the encoded predicate attributes is present in
the item's attributes with an equal value (vacuously true when empty). -/
def specAttrsMatch (ea : WireAttrs) (it : Item) : Bool :=
  ea.all fun kv => it.attributes.lookup kv.1 == some kv.2

/-- Spec wording: true when the predicate label is unset, else exact string
equality with the item's label. -/
def specLabelMatch (lbl : Option String) (it : Item) : Bool :=
  match lbl with
  | none => true
  | some l => l == it.label

/-- Spec wording: true when the predicate path is unset, else exact string
equality with the item's path. -/
def specPathMatch (pth : Option String) (it : Item) : Bool :=
  match pth with
  | none => true
  | some p => p == it.path

/-! ## Claim theorems -/

/-- Claim C1: for every collection, predicate and logic in
{ALL (source `"AND"`), ANY (source `"OR"`)}, `search_items` returns exactly
the items, in enumeration order, for which the combinator of the three facts
`attrsMatch`, `labelMatch`, `pathMatch` holds: all three under ALL, at least
one under ANY. -/
theorem search_items_combinator (items : List Item) (attributes : Option Attrs)
    (lbl pth : Option String) (ea : WireAttrs)
    (hea : encode_attributes (attributes.getD []) = some ea) :
    search_items items attributes lbl pth "AND"
      = some (items.filter fun it =>
          specAttrsMatch ea it && specLabelMatch lbl it && specPathMatch pth it) ∧
    search_items items attributes lbl pth "OR"
      = some (items.filter fun it =>
          specAttrsMatch ea it || specLabelMatch lbl it || specPathMatch pth it) := by
  unfold search_items
  rw [hea]
  exact ⟨rfl, rfl⟩

/-- Claim C1 witness: the theorem applied to a concrete collection and
predicate whose attribute encoding succeeds. -/
theorem search_items_combinator_witness :
    (encode_attributes ((some [("k", AttrVal.str [118])] : Option Attrs).getD [])
        = some [("k", [118])]) ∧
    (search_items [(⟨"L", [("k", [118])], "s", "p"⟩ : Item)]
        (some [("k", AttrVal.str [118])]) none none "AND"
      = some ([(⟨"L", [("k", [118])], "s", "p"⟩ : Item)].filter fun it =>
          specAttrsMatch [("k", [118])] it && specLabelMatch none it
            && specPathMatch none it) ∧
    search_items [(⟨"L", [("k", [118])], "s", "p"⟩ : Item)]
        (some [("k", AttrVal.str [118])]) none none "OR"
      = some ([(⟨"L", [("k", [118])], "s", "p"⟩ : Item)].filter fun it =>
          specAttrsMatch [("k", [118])] it || specLabelMatch none it
            || specPathMatch none it)) :=
  ⟨by decide,
   search_items_combinator [(⟨"L", [("k", [118])], "s", "p"⟩ : Item)]
     (some [("k", AttrVal.str [118])]) none none [("k", [118])] (by decide)⟩

/-- Claim C5: for every attribute mapping whose values are all valid UTF-8
byte sequences, encoding to wire text (`_encode_attributes`, `toWire`) and
re-encoding to bytes (`_decode_attributes`, `fromWire`) returns the original
mapping: `fromWire(toWire(A)) == A`. -/
theorem attributes_roundtrip (A : List (String × PyBytes))
    (h : ∀ kv ∈ A, (utf8Decode kv.2).isSome = true) :
    ∃ w, encode_attributes (A.map fun kv => (kv.1, AttrVal.bytes kv.2)) = some w
      ∧ decode_attributes w = A := by
  induction A with
  | nil => exact ⟨[], rfl, rfl⟩
  | cons kv A ih =>
    obtain ⟨k, bv⟩ := kv
    have h1 : (utf8Decode bv).isSome = true := h (k, bv) (by simp)
    obtain ⟨s, hs⟩ := Option.isSome_iff_exists.mp h1
    obtain ⟨w, hw, hdw⟩ := ih (fun kv hkv => h kv (List.mem_cons_of_mem _ hkv))
    refine ⟨(k, s) :: w, ?_, ?_⟩
    · simp only [List.map_cons, encode_attributes, encodeVal, hs, hw]
    · rw [show decode_attributes ((k, s) :: w)
          = (k, utf8Encode s) :: decode_attributes w from rfl]
      rw [utf8Encode_decode bv s hs, hdw]

/-- Claim C5 witness: a concrete mapping with an ASCII value and a
multi-byte UTF-8 value round-trips. -/
theorem attributes_roundtrip_witness :
    (∀ kv ∈ ([("k1", [104, 105]), ("k2", [0xC3, 0xA9, 0xE2, 0x82, 0xAC])]
        : List (String × PyBytes)), (utf8Decode kv.2).isSome = true) ∧
    (∃ w, encode_attributes
        (([("k1", [104, 105]), ("k2", [0xC3, 0xA9, 0xE2, 0x82, 0xAC])]
          : List (String × PyBytes)).map fun kv => (kv.1, AttrVal.bytes kv.2))
        = some w
      ∧ decode_attributes w
        = [("k1", [104, 105]), ("k2", [0xC3, 0xA9, 0xE2, 0x82, 0xAC])]) :=
  ⟨by decide, attributes_roundtrip _ (by decide)⟩

/-- Claim C6: `search_items` with an entirely empty predicate (no attribute
filters — `None` or `{}` —, no label, no path) returns every item of the
collection, under logic ANY (`"OR"`) and also under logic ALL (`"AND"`). -/
theorem search_items_empty_predicate (items : List Item) :
    search_items items none none none "AND" = some items ∧
    search_items items none none none "OR" = some items ∧
    search_items items (some []) none none "AND" = some items ∧
    search_items items (some []) none none "OR" = some items := by
  refine ⟨?_, ?_, ?_, ?_⟩ <;>
    simp [search_items, encode_attributes, itemMatches]

/-- Claim C9: `_unlock` on an already-unlocked collection is a no-op that
never issues an unlock request; on a locked collection it issues exactly one
unlock request (even when the prompt was dismissed) and raises
`StillLockedError` if and only if the collection is still locked after the
request returns. -/
theorem unlock_trace_claim (svc : SecretServiceLock) :
    ((unlockTrace svc).countP isUnlockRequest
        = if svc.initiallyLocked then 1 else 0) ∧
    (svc.initiallyLocked = false →
        unlockTrace svc = [UnlockStep.checkLocked false]) ∧
    ((UnlockStep.raiseStillLocked ∈ unlockTrace svc)
        ↔ (svc.initiallyLocked = true ∧ svc.lockedAfterRequest = true)) := by
  obtain ⟨il, lar, pd⟩ := svc
  cases il <;> cases lar <;> cases pd <;> decide

/-- Claim C9 witness: the theorem applied to the four relevant concrete
service behaviours. -/
theorem unlock_trace_claim_witness :
    (((unlockTrace ⟨false, false, false⟩).countP isUnlockRequest
        = if (SecretServiceLock.mk false false false).initiallyLocked then 1 else 0) ∧
      ((SecretServiceLock.mk false false false).initiallyLocked = false →
        unlockTrace ⟨false, false, false⟩ = [UnlockStep.checkLocked false]) ∧
      ((UnlockStep.raiseStillLocked ∈ unlockTrace ⟨false, false, false⟩)
        ↔ ((SecretServiceLock.mk false false false).initiallyLocked = true
            ∧ (SecretServiceLock.mk false false false).lockedAfterRequest = true))) ∧
    (((unlockTrace ⟨true, true, false⟩).countP isUnlockRequest
        = if (SecretServiceLock.mk true true false).initiallyLocked then 1 else 0) ∧
      ((SecretServiceLock.mk true true false).initiallyLocked = false →
        unlockTrace ⟨true, true, false⟩ = [UnlockStep.checkLocked false]) ∧
      ((UnlockStep.raiseStillLocked ∈ unlockTrace ⟨true, true, false⟩)
        ↔ ((SecretServiceLock.mk true true false).initiallyLocked = true
            ∧ (SecretServiceLock.mk true true false).lockedAfterRequest = true))) :=
  ⟨unlock_trace_claim ⟨false, false, false⟩, unlock_trace_claim ⟨true, true, false⟩⟩

/-- Claim C2: for every first-matched item and provided non-empty
`new_attributes`, `update_item` with `merge = true` sets the item's
attributes to the union of its current attributes and the encoded new
attributes, new values overriding on key collision;  with `merge = false` it
replaces the attribute set wholesale, so every key absent from
`new_attributes` is dropped.  Other items are untouched. -/
theorem update_item_new_attributes (pre post : List Item) (it : Item)
    (pa : Option Attrs) (ns : Option String) (na : Attrs)
    (lbl pth : Option String) (lg : String) (ea ena : WireAttrs)
    (hea : encode_attributes (pa.getD []) = some ea)
    (hpre : ∀ x ∈ pre, itemMatches ea lbl pth lg x = false)
    (hit : itemMatches ea lbl pth lg it = true)
    (hna : na ≠ [])
    (hena : encode_attributes na = some ena)
    (hnd : (ena.map Prod.fst).Nodup) :
    update_item (pre ++ it :: post) pa ns (some na) lbl pth lg true
      = (pre ++
          { (if pyTruthyStr ns then { it with secret := ns.getD "" } else it) with
            attributes := dictUnion it.attributes ena } :: post, none) ∧
    update_item (pre ++ it :: post) pa ns (some na) lbl pth lg false
      = (pre ++
          { (if pyTruthyStr ns then { it with secret := ns.getD "" } else it) with
            attributes := ena } :: post, none) ∧
    (∀ k : String, (dictUnion it.attributes ena).lookup k
        = match ena.lookup k with
          | some v => some v
          | none => it.attributes.lookup k) := by
  have hne : na.isEmpty = false := by
    cases na with
    | nil => exact absurd rfl hna
    | cons a l => rfl
  refine ⟨?_, ?_, fun k => dictUnion_lookup ena hnd it.attributes k⟩
  · rw [update_item_decomp pre post it pa ns (some na) lbl pth lg true ea hea
      hpre hit]
    simp only [hne, Bool.false_eq_true, if_false, hena, if_true]
  · rw [update_item_decomp pre post it pa ns (some na) lbl pth lg false ea hea
      hpre hit]
    simp only [hne, Bool.false_eq_true, if_false, hena]

/-- Claim C2 witness: `merge=true` against `{"k1": "v1"}` with new
`{"k2": "v2"}` yields the union, `merge=false` yields exactly the new set. -/
theorem update_item_new_attributes_witness :
    (encode_attributes ((none : Option Attrs).getD []) = some []) ∧
    (itemMatches [] none none "AND" (⟨"L", [("k1", [118])], "s", "p"⟩ : Item)
        = true) ∧
    (update_item [(⟨"L", [("k1", [118])], "s", "p"⟩ : Item)] none none
        (some [("k2", AttrVal.str [119])]) none none "AND" true
      = ([{ (if pyTruthyStr none then
              { (⟨"L", [("k1", [118])], "s", "p"⟩ : Item) with
                secret := (none : Option String).getD "" }
            else (⟨"L", [("k1", [118])], "s", "p"⟩ : Item)) with
            attributes :=
              dictUnion (⟨"L", [("k1", [118])], "s", "p"⟩ : Item).attributes
                [("k2", [119])] }], none)) ∧
    (update_item [(⟨"L", [("k1", [118])], "s", "p"⟩ : Item)] none none
        (some [("k2", AttrVal.str [119])]) none none "AND" false
      = ([{ (if pyTruthyStr none then
              { (⟨"L", [("k1", [118])], "s", "p"⟩ : Item) with
                secret := (none : Option String).getD "" }
            else (⟨"L", [("k1", [118])], "s", "p"⟩ : Item)) with
            attributes := [("k2", [119])] }], none)) ∧
    ((dictUnion (⟨"L", [("k1", [118])], "s", "p"⟩ : Item).attributes
        [("k2", [119])]).lookup "k1"
      = match ([("k2", [119])] : WireAttrs).lookup "k1" with
        | some v => some v
        | none => (⟨"L", [("k1", [118])], "s", "p"⟩ : Item).attributes.lookup "k1") :=
  ⟨by decide, by decide,
   (update_item_new_attributes [] [] ⟨"L", [("k1", [118])], "s", "p"⟩ none none
     [("k2", AttrVal.str [119])] none none "AND" [] [("k2", [119])] (by decide)
     (by decide) (by decide) (by decide) (by decide) (by decide)).1,
   (update_item_new_attributes [] [] ⟨"L", [("k1", [118])], "s", "p"⟩ none none
     [("k2", AttrVal.str [119])] none none "AND" [] [("k2", [119])] (by decide)
     (by decide) (by decide) (by decide) (by decide) (by decide)).2.1,
   (update_item_new_attributes [] [] ⟨"L", [("k1", [118])], "s", "p"⟩ none none
     [("k2", AttrVal.str [119])] none none "AND" [] [("k2", [119])] (by decide)
     (by decide) (by decide) (by decide) (by decide) (by decide)).2.2 "k1"⟩

/-- Claim C3 counterexample: `delete_item` with a *given but empty*
`delete_attributes` mapping, against a matching item, deletes the whole item
— the item does not survive, contrary to the claim's "when a deleteAttributes
mapping is given … the item itself survives". -/
theorem delete_item_given_empty_mapping_removes_item :
    delete_item [(⟨"L", [("k1", [118])], "s", "p1"⟩ : Item)] none none
        (some "p1") "AND" (some [])
      = ([], none) := by decide

/-- Claim C3 (amended: the given `delete_attributes` mapping must be
non-empty): `delete_item` with a non-empty `delete_attributes` removes
exactly those keys from the first matched item's attribute set (absent keys
ignored), persists the reduced set, and the item survives in place;  with no
`delete_attributes` it removes the entire first matched item. -/
theorem delete_item_attr_removal_or_whole (pre post : List Item) (it : Item)
    (pa : Option Attrs) (lbl pth : Option String) (lg : String)
    (da : Attrs) (ea eda : WireAttrs)
    (hea : encode_attributes (pa.getD []) = some ea)
    (hpre : ∀ x ∈ pre, itemMatches ea lbl pth lg x = false)
    (hit : itemMatches ea lbl pth lg it = true)
    (hda : da ≠ [])
    (heda : encode_attributes da = some eda) :
    delete_item (pre ++ it :: post) pa lbl pth lg (some da)
      = (pre ++ { it with attributes := dictRemoveKeys it.attributes eda }
          :: post, none) ∧
    (∀ k : String, (dictRemoveKeys it.attributes eda).lookup k
        = if eda.any (fun kv => kv.1 == k) then none
          else it.attributes.lookup k) ∧
    delete_item (pre ++ it :: post) pa lbl pth lg none = (pre ++ post, none) := by
  have hne : da.isEmpty = false := by
    cases da with
    | nil => exact absurd rfl hda
    | cons a l => rfl
  refine ⟨?_, fun k => dictRemoveKeys_lookup eda it.attributes k, ?_⟩
  · rw [delete_item_decomp pre post it pa lbl pth lg (some da) ea hea hpre hit]
    simp only [hne, Bool.false_eq_true, if_false, heda]
  · rw [delete_item_decomp pre post it pa lbl pth lg none ea hea hpre hit]

/-- Claim C3 witness: deleting `{"k1": …}` from an item holding
`{"k1": "v1", "k2": "v2"}` leaves the item in place with exactly `{"k2": "v2"}`;
deleting with no mapping removes the item. -/
theorem delete_item_attr_removal_or_whole_witness :
    (encode_attributes ((none : Option Attrs).getD []) = some []) ∧
    (itemMatches [] none none "AND"
        (⟨"L", [("k1", [118]), ("k2", [119])], "s", "p"⟩ : Item) = true) ∧
    (delete_item [(⟨"L", [("k1", [118]), ("k2", [119])], "s", "p"⟩ : Item)]
        none none none "AND" (some [("k1", AttrVal.str [118])])
      = ([{ (⟨"L", [("k1", [118]), ("k2", [119])], "s", "p"⟩ : Item) with
            attributes :=
              dictRemoveKeys
                (⟨"L", [("k1", [118]), ("k2", [119])], "s", "p"⟩ : Item).attributes
                [("k1", [118])] }], none)) ∧
    ((dictRemoveKeys
        (⟨"L", [("k1", [118]), ("k2", [119])], "s", "p"⟩ : Item).attributes
        [("k1", [118])]).lookup "k2"
      = if ([("k1", [118])] : WireAttrs).any (fun kv => kv.1 == "k2") then none
        else (⟨"L", [("k1", [118]), ("k2", [119])], "s", "p"⟩
          : Item).attributes.lookup "k2") ∧
    (delete_item [(⟨"L", [("k1", [118]), ("k2", [119])], "s", "p"⟩ : Item)]
        none none none "AND" none = ([], none)) :=
  ⟨by decide, by decide,
   (delete_item_attr_removal_or_whole [] [] ⟨"L", [("k1", [118]), ("k2", [119])], "s", "p"⟩
     none none none "AND" [("k1", AttrVal.str [118])] [] [("k1", [118])]
     (by decide) (by decide) (by decide) (by decide) (by decide)).1,
   (delete_item_attr_removal_or_whole [] [] ⟨"L", [("k1", [118]), ("k2", [119])], "s", "p"⟩
     none none none "AND" [("k1", AttrVal.str [118])] [] [("k1", [118])]
     (by decide) (by decide) (by decide) (by decide) (by decide)).2.1 "k2",
   (delete_item_attr_removal_or_whole [] [] ⟨"L", [("k1", [118]), ("k2", [119])], "s", "p"⟩
     none none none "AND" [("k1", AttrVal.str [118])] [] [("k1", [118])]
     (by decide) (by decide) (by decide) (by decide) (by decide)).2.2⟩

/-- Claim C10: `delete_item` with a given but *empty* `delete_attributes`
mapping deletes the entire first matched item, exactly as when
`delete_attributes` is not given, rather than performing an attribute-only
removal (Python's `if delete_attributes:` treats `{}` as falsy). -/
theorem delete_item_empty_mapping_as_whole_delete (pre post : List Item)
    (it : Item) (pa : Option Attrs) (lbl pth : Option String) (lg : String)
    (ea : WireAttrs)
    (hea : encode_attributes (pa.getD []) = some ea)
    (hpre : ∀ x ∈ pre, itemMatches ea lbl pth lg x = false)
    (hit : itemMatches ea lbl pth lg it = true) :
    delete_item (pre ++ it :: post) pa lbl pth lg (some [])
      = (pre ++ post, none) ∧
    delete_item (pre ++ it :: post) pa lbl pth lg (some [])
      = delete_item (pre ++ it :: post) pa lbl pth lg none := by
  have h1 : delete_item (pre ++ it :: post) pa lbl pth lg (some [])
      = (pre ++ post, none) := by
    rw [delete_item_decomp pre post it pa lbl pth lg (some []) ea hea hpre hit]
    rfl
  have h2 : delete_item (pre ++ it :: post) pa lbl pth lg none
      = (pre ++ post, none) := by
    rw [delete_item_decomp pre post it pa lbl pth lg none ea hea hpre hit]
  exact ⟨h1, h1.trans h2.symm⟩

/-- Claim C10 witness: the empty-mapping delete removes the single matching
item entirely. -/
theorem delete_item_empty_mapping_as_whole_delete_witness :
    (encode_attributes ((none : Option Attrs).getD []) = some []) ∧
    (itemMatches [] none none "AND" (⟨"L", [("k1", [118])], "s", "p"⟩ : Item)
        = true) ∧
    (delete_item [(⟨"L", [("k1", [118])], "s", "p"⟩ : Item)] none none none
        "AND" (some []) = ([], none)) ∧
    (delete_item [(⟨"L", [("k1", [118])], "s", "p"⟩ : Item)] none none none
        "AND" (some [])
      = delete_item [(⟨"L", [("k1", [118])], "s", "p"⟩ : Item)] none none none
          "AND" none) :=
  ⟨by decide, by decide,
   (delete_item_empty_mapping_as_whole_delete [] [] ⟨"L", [("k1", [118])], "s", "p"⟩
     none none none "AND" [] (by decide) (by decide) (by decide)).1,
   (delete_item_empty_mapping_as_whole_delete [] [] ⟨"L", [("k1", [118])], "s", "p"⟩
     none none none "AND" [] (by decide) (by decide) (by decide)).2⟩

/-- Claim C4: `update_item` and `delete_item` raise `NotFoundError`
(`ValueError("Item not found")`) if and only if the matcher returns zero
items;  when at least one item matches they mutate only the first match in
enumeration order, leaving every other item (the items before and after the
first match) unchanged. -/
theorem update_delete_notFound_iff_first_match (items : List Item)
    (pa : Option Attrs) (ns : Option String) (na : Option Attrs)
    (da : Option Attrs) (lbl pth : Option String) (lg : String) (mg : Bool)
    (ea : WireAttrs)
    (hea : encode_attributes (pa.getD []) = some ea) :
    ((update_item items pa ns na lbl pth lg mg).2 = some KError.notFound
        ↔ items.filter (itemMatches ea lbl pth lg) = []) ∧
    ((delete_item items pa lbl pth lg da).2 = some KError.notFound
        ↔ items.filter (itemMatches ea lbl pth lg) = []) ∧
    (∀ pre it post, items = pre ++ it :: post →
        (∀ x ∈ pre, itemMatches ea lbl pth lg x = false) →
        itemMatches ea lbl pth lg it = true →
        (∃ u, (update_item items pa ns na lbl pth lg mg).1 = pre ++ u :: post) ∧
        ((delete_item items pa lbl pth lg da).1 = pre ++ post ∨
          ∃ d, (delete_item items pa lbl pth lg da).1 = pre ++ d :: post)) := by
  refine ⟨⟨?_, ?_⟩, ⟨?_, ?_⟩, ?_⟩
  · intro h
    cases hf : items.filter (itemMatches ea lbl pth lg) with
    | nil => rfl
    | cons it rest =>
      obtain ⟨pre, post, hd, hp, hq⟩ :=
        exists_first_match_decomp _ items it rest hf
      rw [hd] at h
      exact absurd h
        (update_item_snd_ne_notFound pre post it pa ns na lbl pth lg mg ea hea
          hp hq)
  · intro h
    rw [update_item_no_match items pa ns na lbl pth lg mg ea hea h]
  · intro h
    cases hf : items.filter (itemMatches ea lbl pth lg) with
    | nil => rfl
    | cons it rest =>
      obtain ⟨pre, post, hd, hp, hq⟩ :=
        exists_first_match_decomp _ items it rest hf
      rw [hd] at h
      exact absurd h
        (delete_item_snd_ne_notFound pre post it pa lbl pth lg da ea hea hp hq)
  · intro h
    rw [delete_item_no_match items pa lbl pth lg da ea hea h]
  · intro pre it post hd hp hq
    subst hd
    exact ⟨update_item_fst_first_only pre post it pa ns na lbl pth lg mg ea
        hea hp hq,
      delete_item_fst_first_only pre post it pa lbl pth lg da ea hea hp hq⟩

/-- Claim C4 witness: a two-item collection whose second item is the only
match — both mutators spare the non-matching first item. -/
theorem update_delete_notFound_iff_first_match_witness :
    (encode_attributes ((none : Option Attrs).getD []) = some []) ∧
    ((update_item [(⟨"A", [], "sa", "pa"⟩ : Item), (⟨"B", [], "sb", "pb"⟩ : Item)]
          none none none (some "B") none "AND" true).2 = some KError.notFound
      ↔ [(⟨"A", [], "sa", "pa"⟩ : Item), (⟨"B", [], "sb", "pb"⟩ : Item)].filter
          (itemMatches [] (some "B") none "AND") = []) ∧
    ((delete_item [(⟨"A", [], "sa", "pa"⟩ : Item), (⟨"B", [], "sb", "pb"⟩ : Item)]
          none (some "B") none "AND" none).2 = some KError.notFound
      ↔ [(⟨"A", [], "sa", "pa"⟩ : Item), (⟨"B", [], "sb", "pb"⟩ : Item)].filter
          (itemMatches [] (some "B") none "AND") = []) ∧
    ((∃ u, (update_item [(⟨"A", [], "sa", "pa"⟩ : Item), (⟨"B", [], "sb", "pb"⟩ : Item)]
          none none none (some "B") none "AND" true).1
        = [(⟨"A", [], "sa", "pa"⟩ : Item)] ++ u :: []) ∧
      ((delete_item [(⟨"A", [], "sa", "pa"⟩ : Item), (⟨"B", [], "sb", "pb"⟩ : Item)]
            none (some "B") none "AND" none).1
          = [(⟨"A", [], "sa", "pa"⟩ : Item)] ++ [] ∨
        ∃ d, (delete_item [(⟨"A", [], "sa", "pa"⟩ : Item), (⟨"B", [], "sb", "pb"⟩ : Item)]
            none (some "B") none "AND" none).1
          = [(⟨"A", [], "sa", "pa"⟩ : Item)] ++ d :: [])) :=
  ⟨by decide,
   (update_delete_notFound_iff_first_match
     [⟨"A", [], "sa", "pa"⟩, ⟨"B", [], "sb", "pb"⟩] none none none none
     (some "B") none "AND" true [] (by decide)).1,
   (update_delete_notFound_iff_first_match
     [⟨"A", [], "sa", "pa"⟩, ⟨"B", [], "sb", "pb"⟩] none none none none
     (some "B") none "AND" true [] (by decide)).2.1,
   (update_delete_notFound_iff_first_match
     [⟨"A", [], "sa", "pa"⟩, ⟨"B", [], "sb", "pb"⟩] none none none none
     (some "B") none "AND" true [] (by decide)).2.2
     [⟨"A", [], "sa", "pa"⟩] ⟨"B", [], "sb", "pb"⟩ [] rfl (by decide)
     (by decide)⟩

/-- Claim C7 counterexample: `new_secret` provided as the empty string is
*not* written (`if new_secret:` is falsy on `""`): the matched item keeps its
old secret `"s0"`, which differs from the provided `""`. -/
theorem update_item_empty_new_secret_ignored :
    update_item [(⟨"L", [], "s0", "p"⟩ : Item)] none (some "") none none
        (some "p") "AND" true
      = ([(⟨"L", [], "s0", "p"⟩ : Item)], none) ∧
    ("s0" : String) ≠ "" :=
  ⟨by decide, by decide⟩

/-- Claim C7 (amended: the provided `new_secret` must be non-empty): when at
least one item matches and a non-empty `new_secret` is provided,
`update_item` overwrites the first matched item's secret with it,
unconditionally — in every `new_attributes`/`merge` configuration, even when
encoding the new attributes later fails. -/
theorem update_item_nonempty_secret_overwrites (pre post : List Item)
    (it : Item) (pa : Option Attrs) (na : Option Attrs)
    (lbl pth : Option String) (lg : String) (mg : Bool) (ea : WireAttrs)
    (s : String)
    (hea : encode_attributes (pa.getD []) = some ea)
    (hpre : ∀ x ∈ pre, itemMatches ea lbl pth lg x = false)
    (hit : itemMatches ea lbl pth lg it = true)
    (hs : s ≠ "") :
    ∃ u, (update_item (pre ++ it :: post) pa (some s) na lbl pth lg mg).1
        = pre ++ u :: post ∧ u.secret = s := by
  have hts : pyTruthyStr (some s) = true := by
    simp [pyTruthyStr, hs]
  rw [update_item_decomp pre post it pa (some s) na lbl pth lg mg ea hea hpre
    hit]
  simp only [hts, if_true]
  cases na with
  | none => exact ⟨_, rfl, rfl⟩
  | some nal =>
    by_cases hne : nal.isEmpty = true
    · simp only [hne, if_true]
      exact ⟨_, rfl, rfl⟩
    · simp only [Bool.eq_false_iff.mpr hne, Bool.false_eq_true, if_false]
      cases hena : encode_attributes nal with
      | none => exact ⟨_, rfl, rfl⟩
      | some ena =>
        cases mg with
        | true => exact ⟨_, rfl, rfl⟩
        | false => exact ⟨_, rfl, rfl⟩

/-- Claim C7 witness: a non-empty secret `"s1"` does overwrite. -/
theorem update_item_nonempty_secret_overwrites_witness :
    (encode_attributes ((none : Option Attrs).getD []) = some []) ∧
    (("s1" : String) ≠ "") ∧
    (∃ u, (update_item [(⟨"L", [], "s0", "p"⟩ : Item)] none (some "s1") none
          none (some "p") "AND" true).1 = [] ++ u :: [] ∧ u.secret = "s1") :=
  ⟨by decide, by decide,
   update_item_nonempty_secret_overwrites [] [] ⟨"L", [], "s0", "p"⟩ none none
     none (some "p") "AND" true [] "s1" (by decide) (by decide) (by decide)
     (by decide)⟩

/-- Claim C8: `read_item` with `multiple = false` returns the not-found value
(Python `None`) when the matcher returns zero items, and otherwise only the
first match's full decoded record (label, decoded attributes, secret);  with
`multiple = true` it returns every match's full decoded record as a list in
enumeration order (and the not-found value on zero matches). -/
theorem read_item_first_or_all (items : List Item) (pa : Option Attrs)
    (lbl pth : Option String) (lg : String) (ea : WireAttrs)
    (hea : encode_attributes (pa.getD []) = some ea) :
    (items.filter (itemMatches ea lbl pth lg) = [] →
        read_item items pa lbl pth lg false = some ReadResult.notFound ∧
        read_item items pa lbl pth lg true = some ReadResult.notFound) ∧
    (∀ it rest, items.filter (itemMatches ea lbl pth lg) = it :: rest →
        read_item items pa lbl pth lg false
          = some (ReadResult.single (itemRecord it)) ∧
        read_item items pa lbl pth lg true
          = some (ReadResult.multi ((it :: rest).map itemRecord))) := by
  have hs : search_items items pa lbl pth lg
      = some (items.filter (itemMatches ea lbl pth lg)) := by
    unfold search_items
    rw [hea]
  constructor
  · intro hf
    unfold read_item
    rw [hs, hf]
    exact ⟨rfl, rfl⟩
  · intro it rest hf
    unfold read_item
    rw [hs, hf]
    exact ⟨rfl, rfl⟩

/-- Claim C8 witness: one collection probed with a non-matching and a
matching path predicate. -/
theorem read_item_first_or_all_witness :
    (encode_attributes ((none : Option Attrs).getD []) = some []) ∧
    ([(⟨"L", [("k", [118])], "s", "p"⟩ : Item)].filter
        (itemMatches [] none (some "nope") "AND") = []) ∧
    (read_item [(⟨"L", [("k", [118])], "s", "p"⟩ : Item)] none none
          (some "nope") "AND" false = some ReadResult.notFound ∧
      read_item [(⟨"L", [("k", [118])], "s", "p"⟩ : Item)] none none
          (some "nope") "AND" true = some ReadResult.notFound) ∧
    (read_item [(⟨"L", [("k", [118])], "s", "p"⟩ : Item)] none none (some "p")
          "AND" false
        = some (ReadResult.single (itemRecord ⟨"L", [("k", [118])], "s", "p"⟩)) ∧
      read_item [(⟨"L", [("k", [118])], "s", "p"⟩ : Item)] none none (some "p")
          "AND" true
        = some (ReadResult.multi
            (((⟨"L", [("k", [118])], "s", "p"⟩ : Item) :: []).map itemRecord))) :=
  ⟨by decide, by decide,
   (read_item_first_or_all [⟨"L", [("k", [118])], "s", "p"⟩] none none
     (some "nope") "AND" [] (by decide)).1 (by decide),
   (read_item_first_or_all [⟨"L", [("k", [118])], "s", "p"⟩] none none
     (some "p") "AND" [] (by decide)).2 ⟨"L", [("k", [118])], "s", "p"⟩ []
     (by decide)⟩

end Keyraken
